import Mathlib

/-!
Shallow embedding of the `product` ink! contract (src/lib.rs): a `Product`
record with a raw numeric state, an owner, an optional delegate and a code,
and a `ProductFactory` store holding an append-only vector of records with
the messages `create_product`, `get_last`, `delegate_product` and
`accept_product`.  Machine integers of the source (`u8` state, `u16` code,
`u32` pid) are modelled as `Nat`; the `AccountId` principal is opaque beyond
equality and is modelled as `Nat`.  The caller resolved by `Self::env().caller()`
is passed explicitly as the first argument of every message.
-/

namespace product

/-- Principal identity, opaque beyond equality (ink! `AccountId`). -/
abbrev AccountId := Nat

/-- `Product` struct of src/lib.rs: raw `u8` state, `u16` code, owner and
optional delegate. -/
structure Product where
  state : Nat
  code : Nat
  owner : AccountId
  delegate_to : Option AccountId
deriving DecidableEq, Repr

/-- `Product::new(state, code, owner)`: builds a record with `delegate_to = None`. -/
def Product.new (state : Nat) (code : Nat) (owner : AccountId) : Product :=
  { state := state, code := code, owner := owner, delegate_to := none }

/-- `Product::delegate_to(&mut self, delegate)`: sets `state = 1` and
`delegate_to = Some(delegate)`. -/
def Product.delegateTo (p : Product) (delegate : AccountId) : Product :=
  { p with state := 1, delegate_to := some delegate }

/-- `Product::accept(&mut self, delegate)`: sets `state = 0`,
`owner = delegate`, `delegate_to = None`. -/
def Product.accept (p : Product) (delegate : AccountId) : Product :=
  { p with state := 0, owner := delegate, delegate_to := none }

/-- Contract errors of src/lib.rs. -/
inductive Error where
  | PidNotExists
  | InvalidOwner
  | InvalidDelegate
  | InvalidState
deriving DecidableEq, Repr

/-- The contract storage `ProductFactory { products: StorageVec<Product> }`,
modelled as a list indexed from 0 (matching `StorageVec` indexing). -/
abbrev Store := List Product

/-- `ProductFactory::create_product(&mut self, code)`: pushes
`Product::new(0, code, caller)`. -/
def create_product (caller : AccountId) (code : Nat) (s : Store) : Store :=
  s ++ [Product.new 0 code caller]

/-- `ProductFactory::get_last(&mut self)`: indexes at `len - 1`; the fallible
indexing of the source (a panic out of bounds) is modelled as `Option`. -/
def get_last (s : Store) : Option Product :=
  s[s.length - 1]?

/-- `ProductFactory::delegate_product(&mut self, pid, delegate_to)`:
existence check, then ownership check, then state check, then
`p.delegate_to(delegate_to)`.  Returns the result together with the store
after the call. -/
def delegate_product (caller : AccountId) (pid : Nat) (target : AccountId)
    (s : Store) : Except Error Unit × Store :=
  if h : s.length ≤ pid then
    (.error .PidNotExists, s)
  else
    let p := s.get ⟨pid, Nat.lt_of_not_le h⟩
    if p.owner ≠ caller then
      (.error .InvalidOwner, s)
    else if p.state ≠ 0 then
      (.error .InvalidState, s)
    else
      (.ok (), s.set pid (p.delegateTo target))

/-- `ProductFactory::accept_product(&mut self, pid)`: existence check, then
delegate-identity check, then state check, then `p.accept(caller)`. -/
def accept_product (caller : AccountId) (pid : Nat)
    (s : Store) : Except Error Unit × Store :=
  if h : s.length ≤ pid then
    (.error .PidNotExists, s)
  else
    let p := s.get ⟨pid, Nat.lt_of_not_le h⟩
    if p.delegate_to ≠ some caller then
      (.error .InvalidDelegate, s)
    else if p.state ≠ 1 then
      (.error .InvalidState, s)
    else
      (.ok (), s.set pid (p.accept caller))

/-- Modelled from the spec: src/lib.rs exposes no `getById` operation; §4.2
of the spec specifies one returning a snapshot of the record with identifier
`id` when `id < length` and the record-not-found error (`RecordNotFound`,
the source's `PidNotExists`) when `id ≥ length`, without modifying the store. -/
def get_by_id (s : Store) (id : Nat) : Except Error Product :=
  if h : id < s.length then .ok (s.get ⟨id, h⟩) else .error .PidNotExists

/-- One external mutating call, with its caller. -/
inductive Op where
  | create (caller : AccountId) (code : Nat)
  | delegate (caller : AccountId) (pid : Nat) (target : AccountId)
  | accept (caller : AccountId) (pid : Nat)
deriving DecidableEq, Repr

/-- The store after one call (errors leave the returned store). -/
def applyOp (s : Store) : Op → Store
  | .create c code => create_product c code s
  | .delegate c pid t => (delegate_product c pid t s).2
  | .accept c pid => (accept_product c pid s).2

/-- The store reached from the empty store (`ProductFactory::new`) by a
sequence of calls. -/
def run (ops : List Op) : Store :=
  ops.foldl applyOp []

/-- Whether a call is a `create_product` call. -/
def Op.isCreate : Op → Bool
  | .create _ _ => true
  | _ => false

/-- Number of `create_product` calls in a sequence. -/
def countCreates (ops : List Op) : Nat :=
  ops.countP Op.isCreate

/-! ### Case lemmas for the two fallible messages -/

theorem delegate_product_of_ge (c t : AccountId) (pid : Nat) (s : Store)
    (h : s.length ≤ pid) :
    delegate_product c pid t s = (.error .PidNotExists, s) := by
  simp [delegate_product, h]

theorem delegate_product_of_bad_owner (c t : AccountId) (pid : Nat) (s : Store)
    (h : pid < s.length) (ho : s[pid].owner ≠ c) :
    delegate_product c pid t s = (.error .InvalidOwner, s) := by
  simp [delegate_product, Nat.not_le_of_lt h, ho]

theorem delegate_product_of_bad_state (c t : AccountId) (pid : Nat) (s : Store)
    (h : pid < s.length) (ho : s[pid].owner = c)
    (hs : s[pid].state ≠ 0) :
    delegate_product c pid t s = (.error .InvalidState, s) := by
  simp [delegate_product, Nat.not_le_of_lt h, ho, hs]

theorem delegate_product_of_ok (c t : AccountId) (pid : Nat) (s : Store)
    (h : pid < s.length) (ho : s[pid].owner = c)
    (hs : s[pid].state = 0) :
    delegate_product c pid t s =
      (.ok (), s.set pid (s[pid].delegateTo t)) := by
  simp [delegate_product, Nat.not_le_of_lt h, ho, hs]

theorem accept_product_of_ge (c : AccountId) (pid : Nat) (s : Store)
    (h : s.length ≤ pid) :
    accept_product c pid s = (.error .PidNotExists, s) := by
  simp [accept_product, h]

theorem accept_product_of_bad_delegate (c : AccountId) (pid : Nat) (s : Store)
    (h : pid < s.length) (hd : s[pid].delegate_to ≠ some c) :
    accept_product c pid s = (.error .InvalidDelegate, s) := by
  simp [accept_product, Nat.not_le_of_lt h, hd]

theorem accept_product_of_bad_state (c : AccountId) (pid : Nat) (s : Store)
    (h : pid < s.length) (hd : s[pid].delegate_to = some c)
    (hs : s[pid].state ≠ 1) :
    accept_product c pid s = (.error .InvalidState, s) := by
  simp [accept_product, Nat.not_le_of_lt h, hd, hs]

theorem accept_product_of_ok (c : AccountId) (pid : Nat) (s : Store)
    (h : pid < s.length) (hd : s[pid].delegate_to = some c)
    (hs : s[pid].state = 1) :
    accept_product c pid s =
      (.ok (), s.set pid (s[pid].accept c)) := by
  simp [accept_product, Nat.not_le_of_lt h, hd, hs]

/-- From `s[pid]? = some p` extract the bound and the indexed value. -/
theorem getElem?_some_elim (s : Store) (pid : Nat) (p : Product)
    (hp : s[pid]? = some p) : ∃ h : pid < s.length, s[pid] = p := by
  have h : pid < s.length := (List.getElem?_eq_some.mp hp).1
  refine ⟨h, ?_⟩
  rw [List.getElem?_eq_getElem h] at hp
  exact Option.some_injective _ hp

/-- C1: `delegate_product pid target` called by `c` succeeds iff the record
exists, `c` is its owner and its state is `Owned` (raw 0); on success the
record's state becomes `PendingDelegate` (raw 1) and its delegate `some target`;
on failure the error matches the first violated check, in the order existence
(`PidNotExists`), ownership (`InvalidOwner`), state (`InvalidState`).  No
condition is placed on `target`. -/
theorem delegate_product_spec (s : Store) (pid : Nat) (c t : AccountId) :
    ((delegate_product c pid t s).1 = .ok () ↔
      ∃ p, s[pid]? = some p ∧ p.owner = c ∧ p.state = 0)
    ∧ (∀ p, s[pid]? = some p → p.owner = c → p.state = 0 →
        (delegate_product c pid t s).2 =
          s.set pid { p with state := 1, delegate_to := some t })
    ∧ (s.length ≤ pid → (delegate_product c pid t s).1 = .error .PidNotExists)
    ∧ (∀ p, s[pid]? = some p → p.owner ≠ c →
        (delegate_product c pid t s).1 = .error .InvalidOwner)
    ∧ (∀ p, s[pid]? = some p → p.owner = c → p.state ≠ 0 →
        (delegate_product c pid t s).1 = .error .InvalidState) := by
  refine ⟨⟨?_, ?_⟩, ?_, ?_, ?_, ?_⟩
  · intro hok
    rcases Nat.lt_or_ge pid s.length with h | h
    · by_cases ho : s[pid].owner = c
      · by_cases hs : s[pid].state = 0
        · exact ⟨s[pid], List.getElem?_eq_getElem h, ho, hs⟩
        · rw [delegate_product_of_bad_state c t pid s h ho hs] at hok
          simp at hok
      · rw [delegate_product_of_bad_owner c t pid s h ho] at hok
        simp at hok
    · rw [delegate_product_of_ge c t pid s h] at hok
      simp at hok
  · rintro ⟨p, hp, ho, hs⟩
    obtain ⟨h, hpe⟩ := getElem?_some_elim s pid p hp
    subst hpe
    rw [delegate_product_of_ok c t pid s h ho hs]
  · rintro p hp ho hs
    obtain ⟨h, hpe⟩ := getElem?_some_elim s pid p hp
    subst hpe
    rw [delegate_product_of_ok c t pid s h ho hs]
    simp [Product.delegateTo]
  · intro h
    rw [delegate_product_of_ge c t pid s h]
  · rintro p hp ho
    obtain ⟨h, hpe⟩ := getElem?_some_elim s pid p hp
    subst hpe
    rw [delegate_product_of_bad_owner c t pid s h ho]
  · rintro p hp ho hs
    obtain ⟨h, hpe⟩ := getElem?_some_elim s pid p hp
    subst hpe
    rw [delegate_product_of_bad_state c t pid s h ho hs]

/-- C1 witness: on a one-record store owned by principal 1, principal 1
delegating record 0 to itself succeeds (no condition on the target). -/
theorem delegate_product_spec_witness :
    (delegate_product 1 0 1 [Product.new 0 5 1]).1 = .ok () :=
  ((delegate_product_spec [Product.new 0 5 1] 0 1 1).1).mpr
    ⟨Product.new 0 5 1, by decide, by decide, by decide⟩

/-- C2: `accept_product pid` called by `c` succeeds iff the record exists,
its delegate is `some c` and its state is `PendingDelegate` (raw 1); on
success the record's owner becomes `c`, its state `Owned` (raw 0) and its
delegate `none`; on failure the error matches the first violated check, in
the order existence (`PidNotExists`), delegate identity (`InvalidDelegate`,
also when no delegate is set), state (`InvalidState`). -/
theorem accept_product_spec (s : Store) (pid : Nat) (c : AccountId) :
    ((accept_product c pid s).1 = .ok () ↔
      ∃ p, s[pid]? = some p ∧ p.delegate_to = some c ∧ p.state = 1)
    ∧ (∀ p, s[pid]? = some p → p.delegate_to = some c → p.state = 1 →
        (accept_product c pid s).2 =
          s.set pid { p with state := 0, owner := c, delegate_to := none })
    ∧ (s.length ≤ pid → (accept_product c pid s).1 = .error .PidNotExists)
    ∧ (∀ p, s[pid]? = some p → p.delegate_to ≠ some c →
        (accept_product c pid s).1 = .error .InvalidDelegate)
    ∧ (∀ p, s[pid]? = some p → p.delegate_to = some c → p.state ≠ 1 →
        (accept_product c pid s).1 = .error .InvalidState) := by
  refine ⟨⟨?_, ?_⟩, ?_, ?_, ?_, ?_⟩
  · intro hok
    rcases Nat.lt_or_ge pid s.length with h | h
    · by_cases hd : s[pid].delegate_to = some c
      · by_cases hs : s[pid].state = 1
        · exact ⟨s[pid], List.getElem?_eq_getElem h, hd, hs⟩
        · rw [accept_product_of_bad_state c pid s h hd hs] at hok
          simp at hok
      · rw [accept_product_of_bad_delegate c pid s h hd] at hok
        simp at hok
    · rw [accept_product_of_ge c pid s h] at hok
      simp at hok
  · rintro ⟨p, hp, hd, hs⟩
    obtain ⟨h, hpe⟩ := getElem?_some_elim s pid p hp
    subst hpe
    rw [accept_product_of_ok c pid s h hd hs]
  · rintro p hp hd hs
    obtain ⟨h, hpe⟩ := getElem?_some_elim s pid p hp
    subst hpe
    rw [accept_product_of_ok c pid s h hd hs]
    simp [Product.accept]
  · intro h
    rw [accept_product_of_ge c pid s h]
  · rintro p hp hd
    obtain ⟨h, hpe⟩ := getElem?_some_elim s pid p hp
    subst hpe
    rw [accept_product_of_bad_delegate c pid s h hd]
  · rintro p hp hd hs
    obtain ⟨h, hpe⟩ := getElem?_some_elim s pid p hp
    subst hpe
    rw [accept_product_of_bad_state c pid s h hd hs]

/-- C2 witness: on a one-record store pending delegation to principal 2,
principal 2 accepting record 0 succeeds. -/
theorem accept_product_spec_witness :
    (accept_product 2 0 [{ state := 1, code := 5, owner := 1,
                           delegate_to := some 2 }]).1 = .ok () :=
  ((accept_product_spec [{ state := 1, code := 5, owner := 1,
                           delegate_to := some 2 }] 0 2).1).mpr
    ⟨{ state := 1, code := 5, owner := 1, delegate_to := some 2 },
      by decide, by decide, by decide⟩

/-- C3: `create_product code` called by `c` always succeeds, appends exactly
one record with owner `c`, state `Owned` (raw 0), no delegate and the given
code, at identifier `s.length` (the length before the call), increases the
length by exactly 1, and leaves every existing record unchanged. -/
theorem create_product_spec (s : Store) (c : AccountId) (code : Nat) :
    (create_product c code s).length = s.length + 1
    ∧ (create_product c code s)[s.length]? =
        some { state := 0, code := code, owner := c, delegate_to := none }
    ∧ (∀ i, i < s.length → (create_product c code s)[i]? = s[i]?) := by
  refine ⟨by simp [create_product], ?_, ?_⟩
  · rw [create_product, List.getElem?_append_right (le_refl _)]
    simp [Product.new]
  · intro i hi
    rw [create_product, List.getElem?_append, if_pos hi]

/-- C3 witness: creating a record with code 9 by principal 2 on a one-record
store leaves the existing record 0 in place. -/
theorem create_product_spec_witness :
    (create_product 2 9 [Product.new 0 1 7])[0]? = [Product.new 0 1 7][0]? :=
  (create_product_spec [Product.new 0 1 7] 2 9).2.2 0 (by decide)

/-- An erroring `delegate_product` call leaves the store unchanged. -/
theorem delegate_product_error_frame (c t : AccountId) (pid : Nat) (s : Store)
    (e : Error) (he : (delegate_product c pid t s).1 = .error e) :
    (delegate_product c pid t s).2 = s := by
  rcases Nat.lt_or_ge pid s.length with h | h
  · by_cases ho : s[pid].owner = c
    · by_cases hs : s[pid].state = 0
      · rw [delegate_product_of_ok c t pid s h ho hs] at he
        simp at he
      · rw [delegate_product_of_bad_state c t pid s h ho hs]
    · rw [delegate_product_of_bad_owner c t pid s h ho]
  · rw [delegate_product_of_ge c t pid s h]

/-- An erroring `accept_product` call leaves the store unchanged. -/
theorem accept_product_error_frame (c : AccountId) (pid : Nat) (s : Store)
    (e : Error) (he : (accept_product c pid s).1 = .error e) :
    (accept_product c pid s).2 = s := by
  rcases Nat.lt_or_ge pid s.length with h | h
  · by_cases hd : s[pid].delegate_to = some c
    · by_cases hs : s[pid].state = 1
      · rw [accept_product_of_ok c pid s h hd hs] at he
        simp at he
      · rw [accept_product_of_bad_state c pid s h hd hs]
    · rw [accept_product_of_bad_delegate c pid s h hd]
  · rw [accept_product_of_ge c pid s h]

/-- C4: error atomicity — whenever `delegate_product` or `accept_product`
returns an error, the store after the call is exactly the store before it
(all checks happen strictly before any write). -/
theorem error_atomicity (s : Store) (pid : Nat) (c t : AccountId) (e : Error) :
    ((delegate_product c pid t s).1 = .error e →
      (delegate_product c pid t s).2 = s)
    ∧ ((accept_product c pid s).1 = .error e →
      (accept_product c pid s).2 = s) :=
  ⟨delegate_product_error_frame c t pid s e,
   accept_product_error_frame c pid s e⟩

/-- C4 witness: delegating a nonexistent record on the empty store errors and
leaves the store empty. -/
theorem error_atomicity_witness :
    (delegate_product 1 0 2 []).2 = ([] : Store) :=
  (error_atomicity [] 0 1 2 .PidNotExists).1 rfl

/-- C9: idempotent rejection — an erroring `delegate_product` or
`accept_product` call, repeated with identical arguments on the store it
returned, returns the same error. -/
theorem idempotent_rejection (s : Store) (pid : Nat) (c t : AccountId)
    (e : Error) :
    ((delegate_product c pid t s).1 = .error e →
      (delegate_product c pid t ((delegate_product c pid t s).2)).1 = .error e)
    ∧ ((accept_product c pid s).1 = .error e →
      (accept_product c pid ((accept_product c pid s).2)).1 = .error e) := by
  constructor
  · intro he
    rw [delegate_product_error_frame c t pid s e he]
    exact he
  · intro he
    rw [accept_product_error_frame c pid s e he]
    exact he

/-- C9 witness: repeating a rejected delegation of a nonexistent record
yields `PidNotExists` again. -/
theorem idempotent_rejection_witness :
    (delegate_product 1 0 2 ((delegate_product 1 0 2 []).2)).1 =
      .error .PidNotExists :=
  (idempotent_rejection [] 0 1 2 .PidNotExists).1 rfl

/-- C7: on a non-empty store `get_last` returns the record at index
`length - 1` (the most recently created record); the index is in bounds, so
the out-of-bounds branch of the source indexing is unreachable. -/
theorem get_last_spec (s : Store) (h : s ≠ []) :
    s.length - 1 < s.length ∧ get_last s = some (s.getLast h) := by
  have hl : 0 < s.length := List.length_pos.mpr h
  refine ⟨by omega, ?_⟩
  rw [get_last, List.getElem?_eq_getElem (by omega), List.getLast_eq_getElem]

/-- C7 witness: `get_last` on a one-record store returns that record. -/
theorem get_last_spec_witness :
    get_last [Product.new 0 1 2] = some (Product.new 0 1 2) := by
  have hw := (get_last_spec [Product.new 0 1 2] (by decide)).2
  simpa using hw

/-- C6: `get_by_id` returns the record with identifier `id` when
`id < length` and the record-not-found error when `id ≥ length`; it is a
pure function of the store, so the store is not modified. -/
theorem get_by_id_spec (s : Store) (id : Nat) :
    (∀ h : id < s.length, get_by_id s id = .ok s[id])
    ∧ (s.length ≤ id → get_by_id s id = .error .PidNotExists) := by
  constructor
  · intro h
    simp [get_by_id, h]
  · intro h
    simp [get_by_id, Nat.not_lt.mpr h]

/-- C6 witness: on a one-record store, id 0 is found and id 1 is not. -/
theorem get_by_id_spec_witness :
    get_by_id [Product.new 0 1 2] 0 = .ok (Product.new 0 1 2) ∧
    get_by_id [Product.new 0 1 2] 1 = .error .PidNotExists := by
  refine ⟨?_, (get_by_id_spec [Product.new 0 1 2] 1).2 (by decide)⟩
  have hw := (get_by_id_spec [Product.new 0 1 2] 0).1 (by decide)
  simpa using hw

/-- A successful `delegate_product` call was in bounds and wrote exactly the
delegated record at `pid`. -/
theorem delegate_product_ok_elim (c t : AccountId) (pid : Nat) (s : Store)
    (hok : (delegate_product c pid t s).1 = .ok ()) :
    ∃ h : pid < s.length,
      (delegate_product c pid t s).2 = s.set pid (s[pid].delegateTo t) := by
  rcases Nat.lt_or_ge pid s.length with h | h
  · by_cases ho : s[pid].owner = c
    · by_cases hs : s[pid].state = 0
      · exact ⟨h, by rw [delegate_product_of_ok c t pid s h ho hs]⟩
      · rw [delegate_product_of_bad_state c t pid s h ho hs] at hok
        simp at hok
    · rw [delegate_product_of_bad_owner c t pid s h ho] at hok
      simp at hok
  · rw [delegate_product_of_ge c t pid s h] at hok
    simp at hok

/-- A successful `accept_product` call was in bounds and wrote exactly the
accepted record at `pid`. -/
theorem accept_product_ok_elim (c : AccountId) (pid : Nat) (s : Store)
    (hok : (accept_product c pid s).1 = .ok ()) :
    ∃ h : pid < s.length,
      (accept_product c pid s).2 = s.set pid (s[pid].accept c) := by
  rcases Nat.lt_or_ge pid s.length with h | h
  · by_cases hd : s[pid].delegate_to = some c
    · by_cases hs : s[pid].state = 1
      · exact ⟨h, by rw [accept_product_of_ok c pid s h hd hs]⟩
      · rw [accept_product_of_bad_state c pid s h hd hs] at hok
        simp at hok
    · rw [accept_product_of_bad_delegate c pid s h hd] at hok
      simp at hok
  · rw [accept_product_of_ge c pid s h] at hok
    simp at hok

/-- The store returned by `delegate_product` is the old store or a single
in-place update at `pid`. -/
theorem delegate_product_snd_cases (c t : AccountId) (pid : Nat) (s : Store) :
    (delegate_product c pid t s).2 = s ∨
    ∃ h : pid < s.length,
      (delegate_product c pid t s).2 = s.set pid (s[pid].delegateTo t) := by
  rcases Nat.lt_or_ge pid s.length with h | h
  · by_cases ho : s[pid].owner = c
    · by_cases hs : s[pid].state = 0
      · exact .inr ⟨h, by rw [delegate_product_of_ok c t pid s h ho hs]⟩
      · exact .inl (by rw [delegate_product_of_bad_state c t pid s h ho hs])
    · exact .inl (by rw [delegate_product_of_bad_owner c t pid s h ho])
  · exact .inl (by rw [delegate_product_of_ge c t pid s h])

/-- The store returned by `accept_product` is the old store or a single
in-place update at `pid`. -/
theorem accept_product_snd_cases (c : AccountId) (pid : Nat) (s : Store) :
    (accept_product c pid s).2 = s ∨
    ∃ h : pid < s.length,
      (accept_product c pid s).2 = s.set pid (s[pid].accept c) := by
  rcases Nat.lt_or_ge pid s.length with h | h
  · by_cases hd : s[pid].delegate_to = some c
    · by_cases hs : s[pid].state = 1
      · exact .inr ⟨h, by rw [accept_product_of_ok c pid s h hd hs]⟩
      · exact .inl (by rw [accept_product_of_bad_state c pid s h hd hs])
    · exact .inl (by rw [accept_product_of_bad_delegate c pid s h hd])
  · exact .inl (by rw [accept_product_of_ge c pid s h])

/-- C10: frame of successful mutations — a successful `delegate_product`
keeps the store length, changes no record other than `pid`, and at `pid`
changes only `state` and `delegate_to` (owner and code are kept); a
successful `accept_product` keeps the length, changes no record other than
`pid`, and at `pid` changes only `state`, `owner` and `delegate_to` (code is
kept); moreover every call (`create_product`, `delegate_product` or
`accept_product`, succeeding or not) preserves the `code` field of every
record. -/
theorem success_frame (s : Store) (pid : Nat) (c t : AccountId) :
    ((delegate_product c pid t s).1 = .ok () →
      (delegate_product c pid t s).2.length = s.length
      ∧ (∀ i, i ≠ pid → (delegate_product c pid t s).2[i]? = s[i]?)
      ∧ (∀ p, s[pid]? = some p →
          (delegate_product c pid t s).2[pid]? =
            some { p with state := 1, delegate_to := some t }))
    ∧ ((accept_product c pid s).1 = .ok () →
      (accept_product c pid s).2.length = s.length
      ∧ (∀ i, i ≠ pid → (accept_product c pid s).2[i]? = s[i]?)
      ∧ (∀ p, s[pid]? = some p →
          (accept_product c pid s).2[pid]? =
            some { p with state := 0, owner := c, delegate_to := none }))
    ∧ (∀ (op : Op) (i : Nat) (p q : Product),
        s[i]? = some p → (applyOp s op)[i]? = some q → q.code = p.code) := by
  refine ⟨?_, ?_, ?_⟩
  · intro hok
    obtain ⟨h, he⟩ := delegate_product_ok_elim c t pid s hok
    rw [he]
    refine ⟨by simp, fun i hi => List.getElem?_set_ne (Ne.symm hi),
      fun p hp => ?_⟩
    obtain ⟨h2, hpe⟩ := getElem?_some_elim s pid p hp
    subst hpe
    rw [List.getElem?_set_eq_of_lt _ h2]
    simp [Product.delegateTo]
  · intro hok
    obtain ⟨h, he⟩ := accept_product_ok_elim c pid s hok
    rw [he]
    refine ⟨by simp, fun i hi => List.getElem?_set_ne (Ne.symm hi),
      fun p hp => ?_⟩
    obtain ⟨h2, hpe⟩ := getElem?_some_elim s pid p hp
    subst hpe
    rw [List.getElem?_set_eq_of_lt _ h2]
    simp [Product.accept]
  · rintro op i p q hp hq
    obtain ⟨hlt, hpe⟩ := getElem?_some_elim s i p hp
    cases op with
    | create c2 code2 =>
      rw [applyOp, create_product, List.getElem?_append, if_pos hlt, hp] at hq
      obtain rfl : p = q := by simpa using hq
      rfl
    | delegate c2 pid2 t2 =>
      rcases delegate_product_snd_cases c2 t2 pid2 s with he | ⟨h2, he⟩
      · rw [applyOp, he, hp] at hq
        obtain rfl : p = q := by simpa using hq
        rfl
      · rw [applyOp, he] at hq
        by_cases hip : i = pid2
        · subst hip
          rw [List.getElem?_set_eq_of_lt _ h2] at hq
          obtain rfl : s[i].delegateTo t2 = q := by simpa using hq
          rw [← hpe]
          rfl
        · rw [List.getElem?_set_ne (Ne.symm hip), hp] at hq
          obtain rfl : p = q := by simpa using hq
          rfl
    | accept c2 pid2 =>
      rcases accept_product_snd_cases c2 pid2 s with he | ⟨h2, he⟩
      · rw [applyOp, he, hp] at hq
        obtain rfl : p = q := by simpa using hq
        rfl
      · rw [applyOp, he] at hq
        by_cases hip : i = pid2
        · subst hip
          rw [List.getElem?_set_eq_of_lt _ h2] at hq
          obtain rfl : s[i].accept c2 = q := by simpa using hq
          rw [← hpe]
          rfl
        · rw [List.getElem?_set_ne (Ne.symm hip), hp] at hq
          obtain rfl : p = q := by simpa using hq
          rfl

/-- C10 witness: principal 1 successfully delegating its record 0 to
principal 2 rewrites record 0 keeping owner 1 and code 5. -/
theorem success_frame_witness :
    (delegate_product 1 0 2 [Product.new 0 5 1]).2[0]? =
      some { state := 1, code := 5, owner := 1, delegate_to := some 2 } :=
  ((success_frame [Product.new 0 5 1] 0 1 2).1 rfl).2.2 (Product.new 0 5 1) rfl

/-- Per-record coupling invariant: the raw state is 0 (`Owned`) or 1
(`PendingDelegate`), it is 0 exactly when no delegate is set and 1 exactly
when a delegate is set. -/
def ProductInv (p : Product) : Prop :=
  (p.state = 0 ∨ p.state = 1)
  ∧ (p.state = 0 ↔ p.delegate_to = none)
  ∧ (p.state = 1 ↔ ∃ q, p.delegate_to = some q)

/-- Every record of the store satisfies `ProductInv`. -/
def StoreInv (s : Store) : Prop := ∀ p ∈ s, ProductInv p

/-- Every call preserves the store invariant. -/
theorem storeInv_applyOp (s : Store) (op : Op) (hs : StoreInv s) :
    StoreInv (applyOp s op) := by
  cases op with
  | create c code =>
    intro p hp
    rw [applyOp, create_product] at hp
    rcases List.mem_append.mp hp with h | h
    · exact hs p h
    · simp only [List.mem_singleton] at h
      subst h
      exact ⟨Or.inl rfl, by simp [Product.new], by simp [Product.new]⟩
  | delegate c pid t =>
    rcases delegate_product_snd_cases c t pid s with he | ⟨h, he⟩
    · rw [applyOp, he]
      exact hs
    · rw [applyOp, he]
      intro p hp
      rcases List.mem_or_eq_of_mem_set hp with h2 | h2
      · exact hs p h2
      · subst h2
        exact ⟨Or.inr rfl, by simp [Product.delegateTo],
          by simp [Product.delegateTo]⟩
  | accept c pid =>
    rcases accept_product_snd_cases c pid s with he | ⟨h, he⟩
    · rw [applyOp, he]
      exact hs
    · rw [applyOp, he]
      intro p hp
      rcases List.mem_or_eq_of_mem_set hp with h2 | h2
      · exact hs p h2
      · subst h2
        exact ⟨Or.inl rfl, by simp [Product.accept], by simp [Product.accept]⟩

/-- Folding calls preserves the store invariant. -/
theorem storeInv_foldl (ops : List Op) :
    ∀ s : Store, StoreInv s → StoreInv (ops.foldl applyOp s) := by
  induction ops with
  | nil => exact fun s hs => hs
  | cons op ops ih =>
    intro s hs
    rw [List.foldl_cons]
    exact ih _ (storeInv_applyOp s op hs)

/-- C5: state/delegate coupling — every record reachable from the empty
store by any sequence of `create_product`, `delegate_product` and
`accept_product` calls has raw state 0 or 1, state 0 (`Owned`) iff no
delegate is set, and state 1 (`PendingDelegate`) iff some delegate is set;
moreover every single call preserves this invariant. -/
theorem state_delegate_invariant (ops : List Op) :
    StoreInv (run ops)
    ∧ (∀ (s : Store) (op : Op), StoreInv s → StoreInv (applyOp s op)) := by
  refine ⟨?_, storeInv_applyOp⟩
  exact storeInv_foldl ops [] (fun p hp => absurd hp (List.not_mem_nil p))

/-- C5 witness: the record reached by a create followed by a successful
delegation satisfies the coupling invariant. -/
theorem state_delegate_invariant_witness :
    ProductInv { state := 1, code := 7, owner := 1, delegate_to := some 2 } :=
  (state_delegate_invariant [Op.create 1 7, Op.delegate 1 0 2]).1
    { state := 1, code := 7, owner := 1, delegate_to := some 2 } (by decide)

/-- The length after one call: `create_product` adds one, the other calls
keep it. -/
theorem applyOp_length (s : Store) (op : Op) :
    (applyOp s op).length = if op.isCreate then s.length + 1 else s.length := by
  cases op with
  | create c code => simp [applyOp, create_product, Op.isCreate]
  | delegate c pid t =>
    rcases delegate_product_snd_cases c t pid s with he | ⟨h, he⟩ <;>
      simp [applyOp, he, Op.isCreate]
  | accept c pid =>
    rcases accept_product_snd_cases c pid s with he | ⟨h, he⟩ <;>
      simp [applyOp, he, Op.isCreate]

/-- Folding calls adds exactly one record per `create_product` call. -/
theorem run_length_aux (ops : List Op) :
    ∀ s : Store, (ops.foldl applyOp s).length = s.length + countCreates ops := by
  induction ops with
  | nil => intro s; simp [countCreates]
  | cons op ops ih =>
    intro s
    rw [List.foldl_cons, ih, applyOp_length]
    cases op <;> simp [Op.isCreate, countCreates, List.countP_cons]
    all_goals omega

/-- C8: append-only identifiers — starting from the empty store the length
after any sequence of calls equals the number of `create_product` calls (the
identifiers in use are exactly the indices `0, …, length - 1` of the backing
vector), a single call increases the length by one exactly when it is a
create and keeps it otherwise, and no call removes a record: every index
valid before a call is still valid after it.  Moreover no call removes or
reindexes a record: every call leaves the store identical, appends exactly
one new record after all existing ones (`create_product`), or rewrites
exactly one existing index in place with the state transition of the very
record already stored there (`delegate_product` / `accept_product`), so the
record at every other index stays at its index unchanged. -/
theorem append_only_ids (ops : List Op) (s : Store) (op : Op) :
    (run ops).length = countCreates ops
    ∧ (applyOp s op).length = (if op.isCreate then s.length + 1 else s.length)
    ∧ (∀ i, i < s.length → ∃ q, (applyOp s op)[i]? = some q)
    ∧ (applyOp s op = s
       ∨ (∃ c code, op = .create c code
            ∧ applyOp s op = s ++ [Product.new 0 code c])
       ∨ (∃ c pid t, op = .delegate c pid t ∧ ∃ h : pid < s.length,
            applyOp s op = s.set pid (s[pid].delegateTo t))
       ∨ (∃ c pid, op = .accept c pid ∧ ∃ h : pid < s.length,
            applyOp s op = s.set pid (s[pid].accept c))) := by
  refine ⟨?_, applyOp_length s op, ?_, ?_⟩
  · have h := run_length_aux ops []
    simpa [run] using h
  · intro i hi
    have hlen : s.length ≤ (applyOp s op).length := by
      rw [applyOp_length]
      cases op <;> simp [Op.isCreate]
    exact ⟨_, List.getElem?_eq_getElem (lt_of_lt_of_le hi hlen)⟩
  · cases op with
    | create c code =>
      exact .inr (.inl ⟨c, code, rfl, rfl⟩)
    | delegate c pid t =>
      rcases delegate_product_snd_cases c t pid s with he | ⟨h, he⟩
      · left
        rw [applyOp]
        exact he
      · refine .inr (.inr (.inl ⟨c, pid, t, rfl, h, ?_⟩))
        rw [applyOp]
        exact he
    | accept c pid =>
      rcases accept_product_snd_cases c pid s with he | ⟨h, he⟩
      · left
        rw [applyOp]
        exact he
      · refine .inr (.inr (.inr ⟨c, pid, rfl, h, ?_⟩))
        rw [applyOp]
        exact he

/-- C8 witness: a one-record store still has its record 0 after a further
create, and one create from empty gives length 1. -/
theorem append_only_ids_witness :
    (run [Op.create 1 7]).length = countCreates [Op.create 1 7] ∧
    ∃ q, (applyOp [Product.new 0 7 1] (Op.create 2 9))[0]? = some q :=
  ⟨(append_only_ids [Op.create 1 7] [] (Op.accept 1 0)).1,
   (append_only_ids [] [Product.new 0 7 1] (Op.create 2 9)).2.2.1 0 (by decide)⟩

end product
